import Mathlib

/-!
Verification development for the matchadex cafe discovery platform:
a shallow embedding of the rating aggregation, weighted ranking, search
normalization, sort/tie-break, pagination and review-upsert core, with
theorems checking the specification's claims against it.

Numbers are modelled as rationals.  JavaScript `Number(x.toFixed(2))` is
modelled as rounding to 2 decimal places with round-half-up, which agrees
with `toFixed` on the nonnegative values produced by this code base.
-/

/-- JS `Number(value.toFixed(2))`: round to 2 decimal places
(half-up, which coincides with half-away-from-zero on the nonnegative
averages this code produces). -/
def round2 (q : ℚ) : ℚ := ((round (q * 100) : ℤ) : ℚ) / 100

/-- `toAverage` (src/unnamed/part_007, search route, part_011):
`value === null ? null : Number(value.toFixed(2))`. -/
def toAverage : Option ℚ → Option ℚ
  | none => none
  | some v => some (round2 v)

/-- `toRoundedNumber` (src/unnamed/part_007, search route). -/
def toRoundedNumber (v : ℚ) : ℚ := round2 v

/-- A Review row: the fields of the Prisma `Review` model used by the
aggregation and upsert logic. -/
structure Review where
  userId : String
  cafeId : String
  tasteRating : ℤ
  aestheticRating : ℤ
  studyRating : ℤ
  priceEstimate : Option ℚ := none
  textComment : Option String := none
deriving Repr, DecidableEq

/-- A Cafe row: the fields of the Prisma `Cafe` model used by the
list/search/leaderboard logic. -/
structure Cafe where
  id : String
  name : String
  city : String
  isHidden : Bool := false
deriving Repr, DecidableEq

/-- The review group for one cafe: `prisma.review.groupBy` groups review rows
by `cafeId`; the group for a cafe id is the list of its review rows. -/
def reviewsFor (reviews : List Review) (cafeId : String) : List Review :=
  reviews.filter (fun r => r.cafeId == cafeId)

/-- `_avg` of one rating dimension over a review group (`null` on an empty
group, which `groupBy` reports only by omitting the group). -/
def dimAvg (proj : Review → ℤ) (rs : List Review) : Option ℚ :=
  if rs.isEmpty then none
  else some (((rs.map proj).sum : ℚ) / (rs.length : ℚ))

/-- The `averageRating` stored in `ratingMap` (src/unnamed/part_007 lines
131-147, search route lines 119-135): `null` if any dimension average is
`null`, else `toAverage((taste + aesthetic + study) / 3)` applied to the RAW
(unrounded) dimension averages. -/
def averageRatingOf (rs : List Review) : Option ℚ :=
  match dimAvg (·.tasteRating) rs, dimAvg (·.aestheticRating) rs,
        dimAvg (·.studyRating) rs with
  | some t, some a, some s => toAverage (some ((t + a + s) / 3))
  | _, _, _ => none

/-- A cafe annotated with computed metrics and the weighted score, as built by
`cafesWithMetrics` / `cafesWithComputedScore` in the list and search routes. -/
structure ScoredCafe where
  id : String
  name : String
  city : String
  isHidden : Bool
  reviewCount : ℕ
  averageRating : Option ℚ
  weightedRating : Option ℚ
deriving Repr, DecidableEq

/-- `weightedMinReviews` (src/unnamed/part_007 line 157). -/
def weightedMinReviews : ℚ := 5

/-- `priorRating` (src/unnamed/part_007 line 158). -/
def priorRating : ℚ := 3

/-- The weighted score of `cafesWithComputedScore` (src/unnamed/part_007
lines 160-171): Bayesian shrinkage toward the prior, `null` when
`reviewCount === 0`, otherwise rounded to 2 decimal places. -/
def computeWeighted (reviewCount : ℕ) (averageRating : Option ℚ) : Option ℚ :=
  let avg := averageRating.getD 0
  let w := (avg * (reviewCount : ℚ) + priorRating * weightedMinReviews) /
    ((reviewCount : ℚ) + weightedMinReviews)
  if reviewCount = 0 then none else some (toRoundedNumber w)

/-- One cafe pushed through `ratingMap` lookup (with the
`{ reviewCount: 0, averageRating: null }` fallback) and
`cafesWithComputedScore`. -/
def cafeWithComputedScore (c : Cafe) (reviews : List Review) : ScoredCafe :=
  let rs := reviewsFor reviews c.id
  { id := c.id, name := c.name, city := c.city, isHidden := c.isHidden,
    reviewCount := rs.length, averageRating := averageRatingOf rs,
    weightedRating := computeWeighted rs.length (averageRatingOf rs) }

/-- JS whitespace characters (the ones occurring in this code base's inputs). -/
def isJsSpace (c : Char) : Bool :=
  c = ' ' || c = '\t' || c = '\n' || c = '\r'

/-- JS `String.prototype.toLowerCase`, modelled character-wise. -/
def toLowerJS (s : String) : String :=
  String.mk (s.data.map Char.toLower)

/-- JS `String.prototype.trim`: strip leading and trailing whitespace. -/
def trimJS (s : String) : String :=
  String.mk (((s.data.dropWhile isJsSpace).reverse.dropWhile isJsSpace).reverse)

/-- Split a character list on a separator character. -/
def splitChars (sep : Char) : List Char → List (List Char)
  | [] => [[]]
  | c :: cs =>
    match splitChars sep cs with
    | [] => [[]]
    | g :: gs => if c = sep then [] :: g :: gs else (c :: g) :: gs

/-- JS `value.split(",")` (for a single-character separator). -/
def splitJS (s : String) (sep : Char) : List String :=
  (splitChars sep s.data).map String.mk

/-- `SortOption` (src/unnamed/part_007 line 6). -/
inductive SortOption
  | rating
  | popularity
deriving Repr, DecidableEq

/-- `parseSort` (src/unnamed/part_007 lines 30-38): lowercase the value,
keep `rating` / `popularity`, default everything else to `rating`. -/
def parseSort (value : Option String) : SortOption :=
  match value with
  | none => .rating
  | some s =>
    let sortOption := toLowerJS s
    if sortOption = "rating" then .rating
    else if sortOption = "popularity" then .popularity
    else .rating

/-- JS `Number.parseInt(value, 10)`: skip leading whitespace, optional sign,
then the longest digit prefix; `none` models `NaN` (no digits). Trailing
garbage after the digit prefix is ignored, so `parseIntJS "3.7" = some 3`. -/
def parseIntJS (s : String) : Option ℤ :=
  let cs := s.data.dropWhile (fun c => c = ' ' || c = '\t' || c = '\n' || c = '\r')
  let signAndRest : ℤ × List Char :=
    match cs with
    | '-' :: rest => (-1, rest)
    | '+' :: rest => (1, rest)
    | _ => (1, cs)
  let digits := signAndRest.2.takeWhile (·.isDigit)
  if digits.isEmpty then none
  else some (signAndRest.1 *
    (digits.foldl (fun acc c => acc * 10 + ((c.toNat : ℤ) - ('0'.toNat : ℤ))) 0))

/-- `parsePositiveInt` (src/unnamed/part_007 lines 16-28): a missing or empty
(falsy) value yields the fallback; a value whose parseInt is `NaN` or
non-positive yields `none` (which the route turns into a 400); otherwise the
parsed integer. -/
def parsePositiveInt (value : Option String) (fallbackValue : ℤ) : Option ℤ :=
  match value with
  | none => some fallbackValue
  | some s =>
    if s = "" then some fallbackValue
    else
      match parseIntJS s with
      | none => none
      | some n => if n ≤ 0 then none else some n

/-- First-occurrence deduplication: JS `Array.from(new Set(xs))`. -/
def setDedup : List String → List String
  | [] => []
  | x :: xs => x :: (setDedup xs).filter (fun y => y ≠ x)

/-- `parseCityFilters` of the LIST route (src/unnamed/part_007 lines 40-48):
split on commas, trim, drop empties and `all` (case-insensitively), dedup.
No alias expansion happens here. -/
def parseCityFilters (rawCityValues : List String) : List String :=
  setDedup (((rawCityValues.flatMap (fun v => splitJS v ',')).map
    trimJS).filter (fun v => 0 < v.length && toLowerJS v ≠ "all"))

/-- `parseCityFilters` of the SEARCH route (src/app/api/cafes/search/route.ts
lines 41-61): same normalization, then `Bay` and `Bay Area` are each expanded
to both labels before deduplication. -/
def parseCityFiltersSearch (rawCityValues : List String) : List String :=
  let normalized := ((rawCityValues.flatMap (fun v => splitJS v ',')).map
    trimJS).filter (fun v => 0 < v.length && toLowerJS v ≠ "all")
  let expanded := normalized.flatMap (fun v =>
    if v = "Bay" then ["Bay", "Bay Area"]
    else if v = "Bay Area" then ["Bay Area", "Bay"]
    else [v])
  setDedup expanded

/-- The `where` clause of `prisma.cafe.findMany` in the list/search routes:
`isHidden: false`, and `city: { in: cityFilters }` when filters are present. -/
def cafeMatchesWhere (cityFilters : List String) (c : Cafe) : Bool :=
  !c.isHidden && (cityFilters.isEmpty || cityFilters.contains c.city)

/-- U+0301 COMBINING ACUTE ACCENT. -/
def combiningAcute : Char := '\u0301'

/-- U+0302 COMBINING CIRCUMFLEX ACCENT. -/
def combiningCircumflex : Char := '\u0302'

/-- Single-character NFD decomposition, modelled for the precomposed Latin
characters exercised by this code base's search examples; all other
characters are their own decomposition. -/
def nfdChar (c : Char) : List Char :=
  if c = 'é' then ['e', combiningAcute]
  else if c = 'É' then ['E', combiningAcute]
  else if c = 'ê' then ['e', combiningCircumflex]
  else if c = 'Ê' then ['E', combiningCircumflex]
  else [c]

/-- The `\p{Diacritic}` character class, modelled as the Combining
Diacritical Marks block U+0300..U+036F (the marks NFD produces for Latin
letters). -/
def isCombiningDiacritic (c : Char) : Bool :=
  0x300 ≤ c.toNat && c.toNat ≤ 0x36F

/-- `normalizeForSearch` (src/unnamed/part_001): NFD-decompose, strip
combining diacritical marks, lowercase. -/
def normalizeForSearch (value : String) : String :=
  String.mk (((value.data.flatMap nfdChar).filter
    (fun c => !isCombiningDiacritic c)).map Char.toLower)

/-- JS `haystack.includes(needle)`: substring containment. -/
def includesJS (haystack needle : String) : Bool :=
  decide (needle.data <:+: haystack.data)

/-- `matchedCafes` (src/app/api/cafes/search/route.ts lines 98-100): keep the
cafes whose normalized name contains the normalized query. -/
def matchedCafes (cafes : List Cafe) (normalizedQuery : String) : List Cafe :=
  cafes.filter (fun cafe => includesJS (normalizeForSearch cafe.name) normalizedQuery)

/-- Lexicographic three-way comparison of character lists, by code point. -/
def compareChars : List Char → List Char → ℤ
  | [], [] => 0
  | [], _ :: _ => -1
  | _ :: _, [] => 1
  | a :: as, b :: bs =>
    if a < b then -1 else if b < a then 1 else compareChars as bs

/-- JS `String.prototype.localeCompare` with default options, modelled as
case-insensitive lexicographic comparison of the lowercased character
sequences (the ICU default collation compares case-insensitively at primary
strength). -/
def localeCompare (l r : String) : ℤ :=
  compareChars (toLowerJS l).data (toLowerJS r).data

/-- `weightedRating ?? -1`: the null-last key used by the sort comparator. -/
def wrOrNeg (c : ScoredCafe) : ℚ := c.weightedRating.getD (-1)

/-- The sort comparator of the list/search routes (src/unnamed/part_007
lines 173-201): popularity = reviewCount desc, then weightedRating desc
(nulls as -1), then name; rating = weightedRating desc (nulls as -1), then
reviewCount desc, then name. -/
def compareCafes : SortOption → ScoredCafe → ScoredCafe → ℚ
  | .popularity, l, r =>
    if l.reviewCount ≠ r.reviewCount then (r.reviewCount : ℚ) - (l.reviewCount : ℚ)
    else if wrOrNeg l ≠ wrOrNeg r then wrOrNeg r - wrOrNeg l
    else (localeCompare l.name r.name : ℚ)
  | .rating, l, r =>
    if wrOrNeg l ≠ wrOrNeg r then wrOrNeg r - wrOrNeg l
    else if l.reviewCount ≠ r.reviewCount then (r.reviewCount : ℚ) - (l.reviewCount : ℚ)
    else (localeCompare l.name r.name : ℚ)

/-- The ordering relation induced by the comparator: `l` may come before `r`. -/
def cafeLe (sort : SortOption) (l r : ScoredCafe) : Prop :=
  compareCafes sort l r ≤ 0

instance : DecidableRel (cafeLe .rating) := fun l r => by
  unfold cafeLe; infer_instance

instance : DecidableRel (cafeLe .popularity) := fun l r => by
  unfold cafeLe; infer_instance

instance (sort : SortOption) : DecidableRel (cafeLe sort) := by
  cases sort <;> infer_instance

/-- `cafesWithComputedScore.sort(comparator)`: JS `Array.prototype.sort` is
stable and orders by the comparator, i.e. it produces the stable sort, which
insertion sort computes exactly. -/
def sortCafes (sort : SortOption) (xs : List ScoredCafe) : List ScoredCafe :=
  xs.insertionSort (cafeLe sort)

/-- The `pagination` response object (src/unnamed/part_007 lines 234-241). -/
structure Pagination where
  page : ℕ
  pageSize : ℕ
  total : ℕ
  totalPages : ℕ
  hasNextPage : Bool
  hasPreviousPage : Bool
deriving Repr, DecidableEq

/-- `Math.max(1, Math.ceil(total / pageSize))` (src/unnamed/part_007
line 204). -/
def totalPagesOf (total pageSize : ℕ) : ℕ :=
  max 1 (Int.toNat ⌈(total : ℚ) / (pageSize : ℚ)⌉)

/-- The pagination windower (src/unnamed/part_007 lines 203-207 and 234-241):
clamp the page, slice `[(safePage-1)*pageSize, safePage*pageSize)`, report
metadata. -/
def paginate (xs : List ScoredCafe) (page pageSize : ℕ) :
    List ScoredCafe × Pagination :=
  let total := xs.length
  let totalPages := totalPagesOf total pageSize
  let safePage := min page totalPages
  let startIndex := (safePage - 1) * pageSize
  ((xs.drop startIndex).take pageSize,
   { page := safePage, pageSize := pageSize, total := total,
     totalPages := totalPages,
     hasNextPage := decide (safePage < totalPages),
     hasPreviousPage := decide (1 < safePage) })

/-- The JSON body of a successful list/search response (the viewer-specific
`isFavorited` overlay is omitted: it annotates each returned cafe without
changing any field a claim mentions). -/
structure ListResult where
  cafes : List ScoredCafe
  pagination : Pagination
  sort : SortOption
deriving Repr, DecidableEq

/-- The full scored candidate list of the list route: hidden/city filter,
then metrics and weighted score per cafe. -/
def listCandidates (cafes : List Cafe) (reviews : List Review)
    (cityFilters : List String) : List ScoredCafe :=
  (cafes.filter (cafeMatchesWhere cityFilters)).map
    (fun c => cafeWithComputedScore c reviews)

/-- GET /api/cafes (src/unnamed/part_007): validate page/pageSize, filter by
hidden/city, aggregate, score, sort, paginate.  Errors are `(status,
message)` pairs. -/
def listEndpoint (cafes : List Cafe) (reviews : List Review)
    (cityParams : List String)
    (pageParam pageSizeParam sortParam : Option String) :
    Except (ℕ × String) ListResult :=
  let cityFilters := parseCityFilters cityParams
  match parsePositiveInt pageParam 1 with
  | none => .error (400, "page must be a positive integer")
  | some page =>
    match parsePositiveInt pageSizeParam 6 with
    | none => .error (400, "pageSize must be a positive integer up to 50")
    | some pageSize =>
      if 50 < pageSize then
        .error (400, "pageSize must be a positive integer up to 50")
      else
        let sort := parseSort sortParam
        let sorted := sortCafes sort (listCandidates cafes reviews cityFilters)
        let paged := paginate sorted page.toNat pageSize.toNat
        .ok { cafes := paged.1, pagination := paged.2, sort := sort }

/-- The full scored candidate list of the search route: hidden/city filter,
then the normalized-name substring match, then metrics and weighted score. -/
def searchCandidates (cafes : List Cafe) (reviews : List Review)
    (cityFilters : List String) (normalizedQuery : String) : List ScoredCafe :=
  (matchedCafes (cafes.filter (cafeMatchesWhere cityFilters)) normalizedQuery).map
    (fun c => cafeWithComputedScore c reviews)

/-- GET /api/cafes/search (src/app/api/cafes/search/route.ts): require a
non-empty trimmed `q`, validate page/pageSize, filter by hidden/city and
normalized-name containment, aggregate, score, sort, paginate. -/
def searchEndpoint (cafes : List Cafe) (reviews : List Review)
    (qParam : Option String) (cityParams : List String)
    (pageParam pageSizeParam sortParam : Option String) :
    Except (ℕ × String) ListResult :=
  let queryParam := qParam.map trimJS
  match queryParam with
  | none => .error (400, "q is required")
  | some q =>
    if q = "" then .error (400, "q is required")
    else
      let normalizedQuery := normalizeForSearch q
      let cityFilters := parseCityFiltersSearch cityParams
      match parsePositiveInt pageParam 1 with
      | none => .error (400, "page must be a positive integer")
      | some page =>
        match parsePositiveInt pageSizeParam 6 with
        | none => .error (400, "pageSize must be a positive integer up to 50")
        | some pageSize =>
          if 50 < pageSize then
            .error (400, "pageSize must be a positive integer up to 50")
          else
            let sort := parseSort sortParam
            let sorted := sortCafes sort
              (searchCandidates cafes reviews cityFilters normalizedQuery)
            let paged := paginate sorted page.toNat pageSize.toNat
            .ok { cafes := paged.1, pagination := paged.2, sort := sort }

/-- A leaderboard entry (src/unnamed/part_011): a cafe with its review count
and raw (unweighted) overall rating. -/
structure LeaderboardEntry where
  id : String
  name : String
  city : String
  reviewCount : ℕ
  overallRating : Option ℚ
deriving Repr, DecidableEq

/-- The aggregation step of the leaderboard page (src/unnamed/part_011 lines
32-59): every cafe (hidden ones included: `prisma.cafe.findMany()` has no
filter there), annotated with review count and rounded overall rating, with
the `{ reviewCount: 0, overallRating: null }` fallback. -/
def leaderboardAggregate (cafes : List Cafe) (reviews : List Review) :
    List LeaderboardEntry :=
  cafes.map (fun c =>
    let rs := reviewsFor reviews c.id
    { id := c.id, name := c.name, city := c.city,
      reviewCount := rs.length, overallRating := averageRatingOf rs })

/-- The leaderboard sort comparator (src/unnamed/part_011 lines 61-67):
overallRating descending with `?? -1` for null, then reviewCount
descending. -/
def leaderboardCompare (l r : LeaderboardEntry) : ℚ :=
  if r.overallRating.getD (-1) ≠ l.overallRating.getD (-1) then
    r.overallRating.getD (-1) - l.overallRating.getD (-1)
  else (r.reviewCount : ℚ) - (l.reviewCount : ℚ)

/-- The ordering relation induced by the leaderboard comparator. -/
def leaderboardLe (l r : LeaderboardEntry) : Prop :=
  leaderboardCompare l r ≤ 0

instance : DecidableRel leaderboardLe := fun l r => by
  unfold leaderboardLe; infer_instance

/-- `rankedCafes` (src/unnamed/part_011 lines 52-68): aggregate all cafes,
keep those with at least one review, sort by overall rating then review
count, truncate to the top 20. -/
def rankedCafes (cafes : List Cafe) (reviews : List Review) :
    List LeaderboardEntry :=
  (((leaderboardAggregate cafes reviews).filter
      (fun e => 0 < e.reviewCount)).insertionSort leaderboardLe).take 20

/-- One review submission: the validated payload of POST /api/reviews
(src/unnamed/part_009) that reaches `prisma.review.upsert`. -/
structure ReviewSubmission where
  userId : String
  cafeId : String
  tasteRating : ℤ
  aestheticRating : ℤ
  studyRating : ℤ
  priceEstimate : Option ℚ := none
  textComment : Option String := none
deriving Repr, DecidableEq

/-- Does a review row carry the `userId_cafeId` key? -/
def reviewKeyMatches (r : Review) (userId cafeId : String) : Bool :=
  r.userId == userId && r.cafeId == cafeId

/-- `prisma.review.upsert` keyed on `userId_cafeId` (src/unnamed/part_009
lines 99-123): if a row with the key exists, update its rating, price and
comment fields in place; otherwise insert a new row. -/
def upsertReview (db : List Review) (s : ReviewSubmission) : List Review :=
  if db.any (fun r => reviewKeyMatches r s.userId s.cafeId) then
    db.map (fun r =>
      if reviewKeyMatches r s.userId s.cafeId then
        { r with tasteRating := s.tasteRating,
                 aestheticRating := s.aestheticRating,
                 studyRating := s.studyRating,
                 priceEstimate := s.priceEstimate,
                 textComment := s.textComment }
      else r)
  else
    db ++ [{ userId := s.userId, cafeId := s.cafeId,
             tasteRating := s.tasteRating,
             aestheticRating := s.aestheticRating,
             studyRating := s.studyRating,
             priceEstimate := s.priceEstimate,
             textComment := s.textComment }]

/-- A sequence of review submissions applied in order. -/
def submitAll (db : List Review) (subs : List ReviewSubmission) : List Review :=
  subs.foldl upsertReview db

/-- How many rows of the database carry a given `(user, cafe)` key. -/
def countKey (db : List Review) (userId cafeId : String) : ℕ :=
  db.countP (fun r => reviewKeyMatches r userId cafeId)

/-- The most recent submission for a given `(user, cafe)` key, if any. -/
def lastSubFor (userId cafeId : String) (subs : List ReviewSubmission) :
    Option ReviewSubmission :=
  (subs.filter (fun s => s.userId == userId && s.cafeId == cafeId)).getLast?

/-- The per-key counter state of the in-process rate limiter
(src/lib/rate-limit.ts): request count and fixed-window start time. -/
structure RateLimitState where
  count : ℕ
  windowStart : ℕ
deriving Repr, DecidableEq

/-- `enforceRateLimit` (src/lib/rate-limit.ts lines 22-52) for one key:
start a fresh window when none exists or the current one is at least
`windowMs` old; deny once `count` reaches `maxRequests`; otherwise increment
and allow.  Returns the `allowed` flag and the new state. -/
def rlStep (maxRequests windowMs : ℕ) (st : Option RateLimitState)
    (now : ℕ) : Bool × RateLimitState :=
  match st with
  | none => (true, { count := 1, windowStart := now })
  | some existing =>
    if windowMs ≤ now - existing.windowStart then
      (true, { count := 1, windowStart := now })
    else if maxRequests ≤ existing.count then
      (false, existing)
    else
      (true, { count := existing.count + 1,
               windowStart := existing.windowStart })

/-- Run the rate limiter over a trace of call times, recording for each call
whether it was allowed and the window start in force after it. -/
def rlRun (maxRequests windowMs : ℕ) (st : Option RateLimitState) :
    List ℕ → List (Bool × ℕ)
  | [] => []
  | t :: ts =>
    let step := rlStep maxRequests windowMs st t
    (step.1, step.2.windowStart) ::
      rlRun maxRequests windowMs (some step.2) ts

/-- How many calls of a recorded trace were allowed inside the window that
started at `w`. -/
def countAllowedAt (w : ℕ) (out : List (Bool × ℕ)) : ℕ :=
  out.countP (fun p => p.1 && p.2 == w)

/-- The rate-limit key of POST /api/reviews (src/unnamed/part_009 line 30). -/
def reviewsPostRateLimitKey (clientIp : String) : String :=
  "reviews:post:" ++ clientIp

/-- `maxRequests` of POST /api/reviews (src/unnamed/part_009 line 31). -/
def reviewsPostMaxRequests : ℕ := 30

/-- `windowMs` of POST /api/reviews (src/unnamed/part_009 line 32). -/
def reviewsPostWindowMs : ℕ := 60000

/-- The rate-limit gate of POST /api/reviews (src/unnamed/part_009 lines
29-40): run `enforceRateLimit` and answer 429 when the call is not allowed. -/
def reviewsPostRateLimitGate (st : Option RateLimitState) (now : ℕ) :
    Except (ℕ × String) RateLimitState :=
  let result := rlStep reviewsPostMaxRequests reviewsPostWindowMs st now
  if result.1 = false then
    .error (429, "too many requests, please try again shortly")
  else .ok result.2

/-! Specification-side formulations, for comparison with the definitions
embedded from the source. -/

/-- The overall rating as the specification describes it: the mean of the
three per-dimension means EACH ALREADY ROUNDED to 2 decimal places, the mean
itself rounded again.  (For comparison with `averageRatingOf`, which rounds
only once, at the end.) -/
def overallFromRoundedDims (rs : List Review) : Option ℚ :=
  match toAverage (dimAvg (·.tasteRating) rs),
        toAverage (dimAvg (·.aestheticRating) rs),
        toAverage (dimAvg (·.studyRating) rs) with
  | some t, some a, some s => some (round2 ((t + a + s) / 3))
  | _, _, _ => none

/-- The raw (unrounded) overall mean of a review group: the mean of the three
raw per-dimension means. -/
def rawOverallMean (rs : List Review) : ℚ :=
  (((((rs.map (·.tasteRating)).sum : ℤ) : ℚ) / (rs.length : ℚ)) +
   ((((rs.map (·.aestheticRating)).sum : ℤ) : ℚ) / (rs.length : ℚ)) +
   ((((rs.map (·.studyRating)).sum : ℤ) : ℚ) / (rs.length : ℚ))) / 3

/-- The rating-mode order as the specification states it: weightedRating
descending with nulls as -1, ties by reviewCount descending, remaining ties
by name ascending under the locale comparison.  `l` may come before `r`. -/
def ratingOrderSpec (l r : ScoredCafe) : Prop :=
  wrOrNeg r < wrOrNeg l ∨
  (wrOrNeg l = wrOrNeg r ∧
    (r.reviewCount < l.reviewCount ∨
     (l.reviewCount = r.reviewCount ∧ localeCompare l.name r.name ≤ 0)))

/-- The leaderboard order as the specification states it: overallRating
descending (nulls as -1), ties by reviewCount descending. -/
def leaderboardOrderSpec (l r : LeaderboardEntry) : Prop :=
  r.overallRating.getD (-1) < l.overallRating.getD (-1) ∨
  (l.overallRating.getD (-1) = r.overallRating.getD (-1) ∧
    r.reviewCount ≤ l.reviewCount)

/-- `max(1, ceil(T/S))` as natural-number ceiling division (the
specification-side formulation of `totalPages`). -/
def specTotalPages (total pageSize : ℕ) : ℕ :=
  max 1 ((total + pageSize - 1) / pageSize)

/-! Concrete fixtures used by witnesses and counterexamples. -/

/-- A review rating every dimension 5 (first review of the spec's weighted
rating scenario). -/
def reviewAllFives : Review := ⟨"u1", "a", 5, 5, 5, none, none⟩

/-- A review rating every dimension 3 (second review of the spec's weighted
rating scenario). -/
def reviewAllThrees : Review := ⟨"u2", "a", 3, 3, 3, none, none⟩

/-- The review set of the spec's weighted rating scenario. -/
def scenarioReviews : List Review := [reviewAllFives, reviewAllThrees]

/-- The cafe of the spec's weighted rating scenario. -/
def scenarioCafe : Cafe := ⟨"a", "Cafe A", "LA", false⟩

/-- A cafe whose city label is the importer's `Bay`. -/
def bayCafe : Cafe := ⟨"b", "Bay Cafe", "Bay", false⟩

/-- A cafe whose city label is the client's `Bay Area`. -/
def bayAreaCafe : Cafe := ⟨"b2", "Bayview Beans", "Bay Area", false⟩

/-- The diacritic search scenario's matching cafe. -/
def pheHouse : Cafe := ⟨"p", "Phê House", "NYC", false⟩

/-- The diacritic search scenario's non-matching cafe. -/
def matchaCorner : Cafe := ⟨"m", "Matcha Corner", "NYC", false⟩

/-- Review group on which once-rounded and twice-rounded overall ratings
differ: dimension means 4/3, 4/3 and 7/3. -/
def mixedRoundingReviews : List Review :=
  [⟨"u1", "c", 1, 1, 2, none, none⟩,
   ⟨"u2", "c", 1, 1, 2, none, none⟩,
   ⟨"u3", "c", 2, 2, 3, none, none⟩]

/-- The scored form of the scenario cafe under the scenario reviews. -/
def scenarioScored : ScoredCafe :=
  ⟨"a", "Cafe A", "LA", false, 2, some 4, some (329/100)⟩

/-- The list-endpoint response for the scenario cafe alone. -/
def scenarioListResult : ListResult :=
  ⟨[scenarioScored], ⟨1, 6, 1, 1, false, false⟩, .rating⟩

/-- Three scored cafes used to exercise the pagination windower. -/
def demoWindowCafes : List ScoredCafe :=
  [⟨"x", "X", "LA", false, 0, none, none⟩,
   ⟨"y", "Y", "LA", false, 0, none, none⟩,
   ⟨"z", "Z", "LA", false, 0, none, none⟩]

/-- A first review submission for the upsert scenario. -/
def subFirst : ReviewSubmission :=
  ⟨"u1", "a", 5, 4, 3, some 12, some ("great")⟩

/-- A second review submission from the same user for the same cafe. -/
def subSecond : ReviewSubmission :=
  ⟨"u1", "a", 2, 2, 2, none, none⟩

/-! Helper lemmas. -/


theorem round2_idem (q : ℚ) : round2 (round2 q) = round2 q := by
  unfold round2
  rw [div_mul_cancel₀ _ (by norm_num : (100:ℚ) ≠ 0), round_intCast]

theorem compareChars_anti : ∀ (a b : List Char),
    compareChars a b = -compareChars b a := by
  intro a
  induction a with
  | nil => intro b; cases b <;> simp [compareChars]
  | cons x xs ih =>
    intro b
    cases b with
    | nil => simp [compareChars]
    | cons y ys =>
      by_cases hxy : x < y
      · have hyx : ¬ y < x := asymm hxy
        simp [compareChars, hxy, hyx]
      · by_cases hyx : y < x
        · simp [compareChars, hxy, hyx]
        · simp [compareChars, hxy, hyx, ih ys]

theorem compareChars_le_trans : ∀ (a b c : List Char),
    compareChars a b ≤ 0 → compareChars b c ≤ 0 → compareChars a c ≤ 0 := by
  intro a
  induction a with
  | nil => intro b c _ _; cases c <;> simp [compareChars]
  | cons x xs ih =>
    intro b c h1 h2
    cases b with
    | nil => simp [compareChars] at h1
    | cons y ys =>
      cases c with
      | nil => simp [compareChars] at h2
      | cons z zs =>
        simp only [compareChars] at h1 h2 ⊢
        have hyx : ¬ y < x := by
          by_contra hyx
          rw [if_neg (asymm hyx), if_pos hyx] at h1
          norm_num at h1
        have hzy : ¬ z < y := by
          by_contra hzy
          rw [if_neg (asymm hzy), if_pos hzy] at h2
          norm_num at h2
        have hxley : x ≤ y := not_lt.mp hyx
        have hylez : y ≤ z := not_lt.mp hzy
        by_cases hxz : x < z
        · simp [hxz]
        · have hxzeq : x = z := le_antisymm (le_trans hxley hylez) (not_lt.mp hxz)
          have hxyeq : x = y := le_antisymm hxley (hxzeq ▸ hylez)
          have hyzeq : y = z := hxyeq ▸ hxzeq
          rw [if_neg hxz, if_neg (hxzeq ▸ lt_irrefl x)]
          rw [if_neg (hxyeq ▸ lt_irrefl x), if_neg (hxyeq ▸ hyx)] at h1
          rw [if_neg (hyzeq ▸ lt_irrefl y), if_neg (hyzeq ▸ hzy)] at h2
          exact ih ys zs h1 h2

theorem localeCompare_anti (l r : String) :
    localeCompare l r = -localeCompare r l := by
  unfold localeCompare
  exact compareChars_anti _ _

theorem localeCompare_le_trans {a b c : String}
    (h1 : localeCompare a b ≤ 0) (h2 : localeCompare b c ≤ 0) :
    localeCompare a c ≤ 0 :=
  compareChars_le_trans _ _ _ h1 h2

theorem compareCafes_rating_le_iff (l r : ScoredCafe) :
    compareCafes .rating l r ≤ 0 ↔ ratingOrderSpec l r := by
  simp only [compareCafes, ratingOrderSpec]
  by_cases h1 : wrOrNeg l = wrOrNeg r
  · by_cases h2 : l.reviewCount = r.reviewCount
    · rw [if_neg (not_not_intro h1), if_neg (not_not_intro h2), Int.cast_nonpos]
      constructor
      · intro h
        exact Or.inr ⟨h1, Or.inr ⟨h2, h⟩⟩
      · rintro (h | ⟨-, h | ⟨-, h⟩⟩)
        · rw [h1] at h; exact absurd h (lt_irrefl _)
        · omega
        · exact h
    · rw [if_neg (not_not_intro h1), if_pos h2, sub_nonpos, Nat.cast_le]
      constructor
      · intro h
        exact Or.inr ⟨h1, Or.inl (by omega)⟩
      · rintro (h | ⟨-, h | ⟨h, -⟩⟩)
        · rw [h1] at h; exact absurd h (lt_irrefl _)
        · omega
        · omega
  · rw [if_pos h1, sub_nonpos]
    constructor
    · intro h
      exact Or.inl (lt_of_le_of_ne h (fun hh => h1 hh.symm))
    · rintro (h | ⟨h, -⟩)
      · exact le_of_lt h
      · exact absurd h h1

theorem ratingOrderSpec_total (l r : ScoredCafe) :
    ratingOrderSpec l r ∨ ratingOrderSpec r l := by
  unfold ratingOrderSpec
  rcases lt_trichotomy (wrOrNeg l) (wrOrNeg r) with h | h | h
  · right; left; exact h
  · rcases lt_trichotomy l.reviewCount r.reviewCount with h2 | h2 | h2
    · right; right; exact ⟨h.symm, Or.inl h2⟩
    · rcases le_or_lt (localeCompare l.name r.name) 0 with h3 | h3
      · left; right; exact ⟨h, Or.inr ⟨h2, h3⟩⟩
      · right; right
        refine ⟨h.symm, Or.inr ⟨h2.symm, ?_⟩⟩
        rw [localeCompare_anti]
        linarith
    · left; right; exact ⟨h, Or.inl h2⟩
  · left; left; exact h

theorem ratingOrderSpec_trans {a b c : ScoredCafe}
    (h1 : ratingOrderSpec a b) (h2 : ratingOrderSpec b c) :
    ratingOrderSpec a c := by
  unfold ratingOrderSpec at h1 h2 ⊢
  rcases h1 with h1 | ⟨h1e, h1r⟩
  · rcases h2 with h2 | ⟨h2e, _⟩
    · left; exact lt_trans h2 h1
    · left; rw [h2e] at h1; exact h1
  · rcases h2 with h2 | ⟨h2e, h2r⟩
    · left; rw [h1e]; exact h2
    · right
      refine ⟨h1e.trans h2e, ?_⟩
      rcases h1r with h1r | ⟨h1c, h1n⟩
      · rcases h2r with h2r | ⟨h2c, _⟩
        · left; exact lt_trans h2r h1r
        · left; rw [h2c] at h1r; exact h1r
      · rcases h2r with h2r | ⟨h2c, h2n⟩
        · left; rw [h1c]; exact h2r
        · right; exact ⟨h1c.trans h2c, localeCompare_le_trans h1n h2n⟩

instance : IsTotal ScoredCafe (cafeLe .rating) :=
  ⟨fun l r => by
    unfold cafeLe
    rcases ratingOrderSpec_total l r with h | h
    · left; exact (compareCafes_rating_le_iff l r).mpr h
    · right; exact (compareCafes_rating_le_iff r l).mpr h⟩

instance : IsTrans ScoredCafe (cafeLe .rating) :=
  ⟨fun a b c h1 h2 => by
    unfold cafeLe at h1 h2 ⊢
    exact (compareCafes_rating_le_iff a c).mpr
      (ratingOrderSpec_trans ((compareCafes_rating_le_iff a b).mp h1)
        ((compareCafes_rating_le_iff b c).mp h2))⟩

theorem leaderboardCompare_le_iff (l r : LeaderboardEntry) :
    leaderboardCompare l r ≤ 0 ↔ leaderboardOrderSpec l r := by
  simp only [leaderboardCompare, leaderboardOrderSpec]
  by_cases h1 : r.overallRating.getD (-1) = l.overallRating.getD (-1)
  · rw [if_neg (not_not_intro h1), sub_nonpos, Nat.cast_le]
    constructor
    · intro h
      exact Or.inr ⟨h1.symm, h⟩
    · rintro (h | ⟨-, h⟩)
      · rw [h1] at h; exact absurd h (lt_irrefl _)
      · exact h
  · rw [if_pos h1, sub_nonpos]
    constructor
    · intro h
      exact Or.inl (lt_of_le_of_ne h h1)
    · rintro (h | ⟨h, -⟩)
      · exact le_of_lt h
      · exact absurd h.symm h1

theorem leaderboardOrderSpec_total (l r : LeaderboardEntry) :
    leaderboardOrderSpec l r ∨ leaderboardOrderSpec r l := by
  unfold leaderboardOrderSpec
  rcases lt_trichotomy (l.overallRating.getD (-1)) (r.overallRating.getD (-1)) with h | h | h
  · right; left; exact h
  · rcases le_total r.reviewCount l.reviewCount with h2 | h2
    · left; right; exact ⟨h, h2⟩
    · right; right; exact ⟨h.symm, h2⟩
  · left; left; exact h

theorem leaderboardOrderSpec_trans {a b c : LeaderboardEntry}
    (h1 : leaderboardOrderSpec a b) (h2 : leaderboardOrderSpec b c) :
    leaderboardOrderSpec a c := by
  unfold leaderboardOrderSpec at h1 h2 ⊢
  rcases h1 with h1 | ⟨h1e, h1c⟩
  · rcases h2 with h2 | ⟨h2e, -⟩
    · left; exact lt_trans h2 h1
    · left; rw [h2e] at h1; exact h1
  · rcases h2 with h2 | ⟨h2e, h2c⟩
    · left; rw [h1e]; exact h2
    · right; exact ⟨h1e.trans h2e, le_trans h2c h1c⟩

instance : IsTotal LeaderboardEntry leaderboardLe :=
  ⟨fun l r => by
    unfold leaderboardLe
    rcases leaderboardOrderSpec_total l r with h | h
    · left; exact (leaderboardCompare_le_iff l r).mpr h
    · right; exact (leaderboardCompare_le_iff r l).mpr h⟩

instance : IsTrans LeaderboardEntry leaderboardLe :=
  ⟨fun a b c h1 h2 => by
    unfold leaderboardLe at h1 h2 ⊢
    exact (leaderboardCompare_le_iff a c).mpr
      (leaderboardOrderSpec_trans ((leaderboardCompare_le_iff a b).mp h1)
        ((leaderboardCompare_le_iff b c).mp h2))⟩

theorem totalPagesOf_eq (total pageSize : ℕ) (h : 1 ≤ pageSize) :
    totalPagesOf total pageSize = specTotalPages total pageSize := by
  unfold totalPagesOf specTotalPages
  congr 1
  set N := (total + pageSize - 1) / pageSize with hN
  have hS : (0:ℚ) < (pageSize : ℚ) := by exact_mod_cast h
  have hdm : pageSize * N + (total + pageSize - 1) % pageSize =
      total + pageSize - 1 := Nat.div_add_mod _ _
  have hmod : (total + pageSize - 1) % pageSize < pageSize :=
    Nat.mod_lt _ (by omega)
  have h1 : total ≤ pageSize * N := by omega
  have h2 : pageSize * N < total + pageSize := by omega
  have h1q : (total : ℚ) ≤ (pageSize : ℚ) * (N : ℚ) := by exact_mod_cast h1
  have h2q : (pageSize : ℚ) * (N : ℚ) < (total : ℚ) + (pageSize : ℚ) := by
    exact_mod_cast h2
  have hceil : ⌈(total:ℚ) / (pageSize:ℚ)⌉ = (N : ℤ) := by
    rw [Int.ceil_eq_iff]
    constructor
    · rw [lt_div_iff₀ hS]
      push_cast
      linarith
    · rw [div_le_iff₀ hS]
      push_cast
      linarith
  rw [hceil]
  exact Int.toNat_natCast _

theorem total_le_totalPagesOf_mul (total pageSize : ℕ) (h : 1 ≤ pageSize) :
    total ≤ totalPagesOf total pageSize * pageSize := by
  rw [totalPagesOf_eq total pageSize h]
  unfold specTotalPages
  set N := (total + pageSize - 1) / pageSize with hN
  have hdm : pageSize * N + (total + pageSize - 1) % pageSize =
      total + pageSize - 1 := Nat.div_add_mod _ _
  have hmod : (total + pageSize - 1) % pageSize < pageSize :=
    Nat.mod_lt _ (by omega)
  have h1 : total ≤ pageSize * N := by omega
  have hmax : N ≤ max 1 N := le_max_right _ _
  calc total ≤ pageSize * N := h1
    _ = N * pageSize := Nat.mul_comm _ _
    _ ≤ max 1 N * pageSize := Nat.mul_le_mul_right _ hmax

theorem windowSum : ∀ (tp pageSize : ℕ) (xs : List ScoredCafe),
    xs.length ≤ tp * pageSize →
    (∑ p ∈ Finset.range tp, ((xs.drop (p * pageSize)).take pageSize).length)
      = xs.length := by
  intro tp
  induction tp with
  | zero =>
    intro S xs h
    simp only [Nat.zero_mul, Nat.le_zero] at h
    simp [h]
  | succ n ih =>
    intro S xs h
    rw [Finset.sum_range_succ']
    have hdrop : ∀ k : ℕ, xs.drop ((k + 1) * S) = (xs.drop S).drop (k * S) := by
      intro k
      rw [List.drop_drop]
      congr 1
      ring
    have hsm : (n + 1) * S = n * S + S := by ring
    have hsum : (∑ p ∈ Finset.range n, ((xs.drop ((p + 1) * S)).take S).length)
        = ((xs.drop S).length) := by
      rw [Finset.sum_congr rfl (fun p _ => by rw [hdrop p])]
      apply ih
      rw [List.length_drop]
      omega
    rw [hsum]
    rw [List.length_drop]
    simp only [Nat.zero_mul, List.drop_zero, List.length_take]
    omega

theorem sortCafes_perm (sort : SortOption) (xs : List ScoredCafe) :
    (sortCafes sort xs).Perm xs :=
  List.perm_insertionSort _ _

theorem mem_paginate {xs : List ScoredCafe} {page pageSize : ℕ}
    {e : ScoredCafe} (h : e ∈ (paginate xs page pageSize).1) : e ∈ xs := by
  unfold paginate at h
  exact List.drop_subset _ _ (List.take_subset _ _ h)

theorem mem_listCandidates {cafes : List Cafe} {reviews : List Review}
    {flt : List String} {e : ScoredCafe}
    (h : e ∈ listCandidates cafes reviews flt) :
    ∃ c ∈ cafes, cafeMatchesWhere flt c = true ∧
      e = cafeWithComputedScore c reviews := by
  unfold listCandidates at h
  rw [List.mem_map] at h
  obtain ⟨c, hc, rfl⟩ := h
  rw [List.mem_filter] at hc
  exact ⟨c, hc.1, hc.2, rfl⟩

theorem mem_searchCandidates {cafes : List Cafe} {reviews : List Review}
    {flt : List String} {q : String} {e : ScoredCafe}
    (h : e ∈ searchCandidates cafes reviews flt q) :
    ∃ c ∈ cafes, cafeMatchesWhere flt c = true ∧
      includesJS (normalizeForSearch c.name) q = true ∧
      e = cafeWithComputedScore c reviews := by
  unfold searchCandidates matchedCafes at h
  rw [List.mem_map] at h
  obtain ⟨c, hc, rfl⟩ := h
  rw [List.mem_filter] at hc
  obtain ⟨hc1, hc2⟩ := hc
  rw [List.mem_filter] at hc1
  exact ⟨c, hc1.1, hc1.2, hc2, rfl⟩


theorem listEndpoint_ok {cafes : List Cafe} {reviews : List Review}
    {cityParams : List String} {pp psp sp : Option String}
    {result : ListResult}
    (h : listEndpoint cafes reviews cityParams pp psp sp = Except.ok result) :
    ∃ page pageSize, parsePositiveInt pp 1 = some page ∧
      parsePositiveInt psp 6 = some pageSize ∧ pageSize ≤ 50 ∧
      result = ⟨(paginate (sortCafes (parseSort sp)
          (listCandidates cafes reviews (parseCityFilters cityParams)))
          page.toNat pageSize.toNat).1,
        (paginate (sortCafes (parseSort sp)
          (listCandidates cafes reviews (parseCityFilters cityParams)))
          page.toNat pageSize.toNat).2,
        parseSort sp⟩ := by
  unfold listEndpoint at h
  rcases hpp : parsePositiveInt pp 1 with _ | page <;> rw [hpp] at h <;>
    dsimp only at h
  · simp at h
  · rcases hpps : parsePositiveInt psp 6 with _ | pageSize <;> rw [hpps] at h <;>
      dsimp only at h
    · simp at h
    · by_cases h50 : 50 < pageSize
      · rw [if_pos h50] at h
        simp at h
      · rw [if_neg h50] at h
        simp only [Except.ok.injEq] at h
        exact ⟨page, pageSize, rfl, rfl, by omega, h.symm⟩

theorem searchEndpoint_ok {cafes : List Cafe} {reviews : List Review}
    {qParam : Option String} {cityParams : List String}
    {pp psp sp : Option String} {result : ListResult}
    (h : searchEndpoint cafes reviews qParam cityParams pp psp sp =
      Except.ok result) :
    ∃ q page pageSize, qParam.map trimJS = some q ∧ q ≠ "" ∧
      parsePositiveInt pp 1 = some page ∧
      parsePositiveInt psp 6 = some pageSize ∧ pageSize ≤ 50 ∧
      result = ⟨(paginate (sortCafes (parseSort sp)
          (searchCandidates cafes reviews (parseCityFiltersSearch cityParams)
            (normalizeForSearch q)))
          page.toNat pageSize.toNat).1,
        (paginate (sortCafes (parseSort sp)
          (searchCandidates cafes reviews (parseCityFiltersSearch cityParams)
            (normalizeForSearch q)))
          page.toNat pageSize.toNat).2,
        parseSort sp⟩ := by
  unfold searchEndpoint at h
  rcases hq : qParam.map trimJS with _ | q <;> rw [hq] at h <;> dsimp only at h
  · simp at h
  · by_cases hqe : q = ""
    · rw [if_pos hqe] at h
      simp at h
    · rw [if_neg hqe] at h
      rcases hpp : parsePositiveInt pp 1 with _ | page <;> rw [hpp] at h <;>
        dsimp only at h
      · simp at h
      · rcases hpps : parsePositiveInt psp 6 with _ | pageSize <;>
          rw [hpps] at h <;> dsimp only at h
        · simp at h
        · by_cases h50 : 50 < pageSize
          · rw [if_pos h50] at h
            simp at h
          · rw [if_neg h50] at h
            simp only [Except.ok.injEq] at h
            exact ⟨q, page, pageSize, rfl, hqe, rfl, rfl, by omega, h.symm⟩

theorem reviewKeyMatches_iff (r : Review) (u c : String) :
    reviewKeyMatches r u c = true ↔ r.userId = u ∧ r.cafeId = c := by
  simp [reviewKeyMatches]

theorem countP_key_map (u c : String) (f : Review → Review)
    (hf : ∀ r, (f r).userId = r.userId ∧ (f r).cafeId = r.cafeId)
    (l : List Review) :
    (l.map f).countP (fun r => reviewKeyMatches r u c) =
      l.countP (fun r => reviewKeyMatches r u c) := by
  rw [List.countP_map]
  apply List.countP_congr
  intro r _
  simp only [Function.comp_apply, reviewKeyMatches_iff, (hf r).1, (hf r).2]

theorem upsertReview_map_keyFields (s : ReviewSubmission) (r : Review) :
    ((if reviewKeyMatches r s.userId s.cafeId then
        { r with tasteRating := s.tasteRating,
                 aestheticRating := s.aestheticRating,
                 studyRating := s.studyRating,
                 priceEstimate := s.priceEstimate,
                 textComment := s.textComment }
      else r).userId = r.userId ∧
     (if reviewKeyMatches r s.userId s.cafeId then
        { r with tasteRating := s.tasteRating,
                 aestheticRating := s.aestheticRating,
                 studyRating := s.studyRating,
                 priceEstimate := s.priceEstimate,
                 textComment := s.textComment }
      else r).cafeId = r.cafeId) := by
  by_cases hr : reviewKeyMatches r s.userId s.cafeId = true <;> simp [hr]

theorem countKey_upsert_same (db : List Review) (s : ReviewSubmission) :
    countKey (upsertReview db s) s.userId s.cafeId =
      max (countKey db s.userId s.cafeId) 1 := by
  unfold upsertReview countKey
  by_cases hany : db.any (fun r => reviewKeyMatches r s.userId s.cafeId) = true
  · rw [if_pos hany]
    rw [countP_key_map _ _ _ (upsertReview_map_keyFields s)]
    rw [List.any_eq_true] at hany
    have hpos : 0 < db.countP (fun r => reviewKeyMatches r s.userId s.cafeId) :=
      List.countP_pos.mpr hany
    omega
  · rw [if_neg hany]
    rw [List.countP_append]
    have hzero : db.countP (fun r => reviewKeyMatches r s.userId s.cafeId) = 0 := by
      by_contra hz
      exact hany (List.any_eq_true.mpr (List.countP_pos.mp (by omega)))
    rw [hzero]
    simp [reviewKeyMatches]

theorem countKey_upsert_other (db : List Review) (s : ReviewSubmission)
    (u c : String) (hne : ¬(s.userId = u ∧ s.cafeId = c)) :
    countKey (upsertReview db s) u c = countKey db u c := by
  unfold upsertReview countKey
  by_cases hany : db.any (fun r => reviewKeyMatches r s.userId s.cafeId) = true
  · rw [if_pos hany]
    exact countP_key_map _ _ _ (upsertReview_map_keyFields s) db
  · rw [if_neg hany]
    rw [List.countP_append]
    have : reviewKeyMatches
        ⟨s.userId, s.cafeId, s.tasteRating, s.aestheticRating, s.studyRating,
         s.priceEstimate, s.textComment⟩ u c = false := by
      rw [Bool.eq_false_iff]
      intro hk
      exact hne ((reviewKeyMatches_iff _ u c).mp hk)
    simp [this]

theorem upsert_values (db : List Review) (s : ReviewSubmission) (r : Review)
    (hmem : r ∈ upsertReview db s)
    (hkey : reviewKeyMatches r s.userId s.cafeId = true) :
    r.tasteRating = s.tasteRating ∧ r.aestheticRating = s.aestheticRating ∧
    r.studyRating = s.studyRating ∧ r.priceEstimate = s.priceEstimate ∧
    r.textComment = s.textComment := by
  unfold upsertReview at hmem
  by_cases hany : db.any (fun r => reviewKeyMatches r s.userId s.cafeId) = true
  · rw [if_pos hany] at hmem
    rw [List.mem_map] at hmem
    obtain ⟨r0, hr0, rfl⟩ := hmem
    by_cases h0 : reviewKeyMatches r0 s.userId s.cafeId = true
    · simp [h0]
    · rw [if_neg h0] at hkey ⊢
      exact absurd hkey h0
  · rw [if_neg hany] at hmem
    rw [List.mem_append] at hmem
    rcases hmem with hmem | hmem
    · exfalso
      exact hany (List.any_eq_true.mpr ⟨r, hmem, hkey⟩)
    · rw [List.mem_singleton] at hmem
      subst hmem
      exact ⟨rfl, rfl, rfl, rfl, rfl⟩

theorem filter_key_map (u c : String) (f : Review → Review)
    (hf : ∀ r, (f r).userId = r.userId ∧ (f r).cafeId = r.cafeId)
    (hid : ∀ r, reviewKeyMatches r u c = true → f r = r) (l : List Review) :
    (l.map f).filter (fun r => reviewKeyMatches r u c) =
      l.filter (fun r => reviewKeyMatches r u c) := by
  induction l with
  | nil => rfl
  | cons r rs ih =>
    simp only [List.map_cons, List.filter_cons]
    have hpf : reviewKeyMatches (f r) u c = reviewKeyMatches r u c := by
      simp only [reviewKeyMatches, (hf r).1, (hf r).2]
    rw [hpf]
    by_cases hp : reviewKeyMatches r u c = true
    · rw [if_pos hp, if_pos hp, hid r hp, ih]
    · rw [if_neg hp, if_neg hp, ih]

theorem filterKey_upsert_other (db : List Review) (s : ReviewSubmission)
    (u c : String) (hne : ¬(s.userId = u ∧ s.cafeId = c)) :
    (upsertReview db s).filter (fun r => reviewKeyMatches r u c) =
      db.filter (fun r => reviewKeyMatches r u c) := by
  unfold upsertReview
  by_cases hany : db.any (fun r => reviewKeyMatches r s.userId s.cafeId) = true
  · rw [if_pos hany]
    apply filter_key_map u c _ (upsertReview_map_keyFields s)
    intro r hr
    have hrs : reviewKeyMatches r s.userId s.cafeId = false := by
      rw [Bool.eq_false_iff]
      intro hk
      obtain ⟨h1, h2⟩ := (reviewKeyMatches_iff _ _ _).mp hk
      obtain ⟨h3, h4⟩ := (reviewKeyMatches_iff _ _ _).mp hr
      exact hne ⟨by rw [← h1, h3], by rw [← h2, h4]⟩
    rw [if_neg (by rw [hrs]; exact Bool.false_ne_true)]
  · rw [if_neg hany]
    rw [List.filter_append]
    have : reviewKeyMatches
        ⟨s.userId, s.cafeId, s.tasteRating, s.aestheticRating, s.studyRating,
         s.priceEstimate, s.textComment⟩ u c = false := by
      rw [Bool.eq_false_iff]
      intro hk
      exact hne ((reviewKeyMatches_iff _ u c).mp hk)
    simp [this]

theorem filterKey_submitAll_other (db : List Review)
    (subs : List ReviewSubmission) (u c : String)
    (hnone : ∀ t ∈ subs, ¬(t.userId = u ∧ t.cafeId = c)) :
    (submitAll db subs).filter (fun r => reviewKeyMatches r u c) =
      db.filter (fun r => reviewKeyMatches r u c) := by
  induction subs generalizing db with
  | nil => rfl
  | cons t ts ih =>
    show (submitAll (upsertReview db t) ts).filter _ = _
    rw [ih (upsertReview db t) (fun t' ht' => hnone t' (List.mem_cons_of_mem t ht'))]
    exact filterKey_upsert_other db t u c (hnone t (List.mem_cons_self t ts))

theorem countKey_submitAll_le (db : List Review)
    (subs : List ReviewSubmission) (u c : String)
    (hle : countKey db u c ≤ 1) :
    countKey (submitAll db subs) u c ≤ 1 := by
  induction subs generalizing db with
  | nil => exact hle
  | cons t ts ih =>
    show countKey (submitAll (upsertReview db t) ts) u c ≤ 1
    apply ih
    by_cases ht : t.userId = u ∧ t.cafeId = c
    · obtain ⟨h1, h2⟩ := ht
      subst h1
      subst h2
      rw [countKey_upsert_same db t]
      omega
    · rw [countKey_upsert_other db t u c ht]
      exact hle

theorem lastSubFor_nil (u c : String) : lastSubFor u c [] = none := rfl

theorem lastSubFor_cons_of_some (u c : String) (t : ReviewSubmission)
    (ts : List ReviewSubmission) (s₂ : ReviewSubmission)
    (h : lastSubFor u c ts = some s₂) :
    lastSubFor u c (t :: ts) = some s₂ := by
  unfold lastSubFor at h ⊢
  rw [List.filter_cons]
  by_cases hm : (t.userId == u && t.cafeId == c) = true
  · rw [if_pos hm]
    cases hl : ts.filter (fun s => s.userId == u && s.cafeId == c) with
    | nil => rw [hl] at h; simp at h
    | cons a as =>
      rw [hl] at h
      rw [List.getLast?_cons_cons]
      exact h
  · rw [if_neg hm]
    exact h

theorem lastSubFor_none_iff (u c : String) (ts : List ReviewSubmission) :
    lastSubFor u c ts = none ↔
      ∀ t ∈ ts, ¬(t.userId = u ∧ t.cafeId = c) := by
  unfold lastSubFor
  constructor
  · intro h t ht hk
    have hfil : ts.filter (fun s => s.userId == u && s.cafeId == c) = [] := by
      cases hl : ts.filter (fun s => s.userId == u && s.cafeId == c) with
      | nil => rfl
      | cons a as =>
        rw [hl] at h
        exfalso
        have hs : ((a :: as).getLast?).isSome = true :=
          List.getLast?_isSome.mpr (by simp)
        rw [h] at hs
        simp at hs
    rw [List.filter_eq_nil_iff] at hfil
    exact hfil t ht (by simp [hk.1, hk.2])
  · intro h
    have hfil : ts.filter (fun s => s.userId == u && s.cafeId == c) = [] := by
      rw [List.filter_eq_nil_iff]
      intro t ht hk
      simp only [Bool.and_eq_true, beq_iff_eq] at hk
      exact h t ht hk
    rw [hfil]
    rfl

theorem countKey_eq_filter_length (db : List Review) (u c : String) :
    countKey db u c = (db.filter (fun r => reviewKeyMatches r u c)).length :=
  List.countP_eq_length_filter _ _

theorem submitAll_last_values (subs : List ReviewSubmission) :
    ∀ (db : List Review) (u c : String) (s : ReviewSubmission),
      lastSubFor u c subs = some s →
      countKey db u c ≤ 1 →
      countKey (submitAll db subs) u c = 1 ∧
      ∀ r ∈ submitAll db subs, reviewKeyMatches r u c = true →
        r.tasteRating = s.tasteRating ∧ r.aestheticRating = s.aestheticRating ∧
        r.studyRating = s.studyRating ∧ r.priceEstimate = s.priceEstimate ∧
        r.textComment = s.textComment := by
  induction subs with
  | nil =>
    intro db u c s hlast
    rw [lastSubFor_nil] at hlast
    exact absurd hlast (by simp)
  | cons t ts ih =>
    intro db u c s hlast hle
    show countKey (submitAll (upsertReview db t) ts) u c = 1 ∧ _
    rcases hts : lastSubFor u c ts with _ | s₂
    · have hnone : ∀ t' ∈ ts, ¬(t'.userId = u ∧ t'.cafeId = c) :=
        (lastSubFor_none_iff u c ts).mp hts
      have hfil : ts.filter (fun x => x.userId == u && x.cafeId == c) = [] := by
        rw [List.filter_eq_nil_iff]
        intro x hx hk
        simp only [Bool.and_eq_true, beq_iff_eq] at hk
        exact hnone x hx hk
      have hmatch : t.userId = u ∧ t.cafeId = c ∧ t = s := by
        unfold lastSubFor at hlast
        rw [List.filter_cons] at hlast
        by_cases hm : (t.userId == u && t.cafeId == c) = true
        · rw [if_pos hm, hfil] at hlast
          simp only [List.getLast?_singleton, Option.some.injEq] at hlast
          simp only [Bool.and_eq_true, beq_iff_eq] at hm
          exact ⟨hm.1, hm.2, hlast⟩
        · rw [if_neg hm, hfil] at hlast
          simp at hlast
      obtain ⟨hu, hc, hst⟩ := hmatch
      subst hst
      subst hu
      subst hc
      have hframe := filterKey_submitAll_other (upsertReview db t) ts
        t.userId t.cafeId hnone
      constructor
      · rw [countKey_eq_filter_length, hframe, ← countKey_eq_filter_length]
        rw [countKey_upsert_same db t]
        omega
      · intro r hr hk
        have hrf : r ∈ (submitAll (upsertReview db t) ts).filter
            (fun r => reviewKeyMatches r t.userId t.cafeId) :=
          List.mem_filter.mpr ⟨hr, hk⟩
        rw [hframe] at hrf
        have := List.mem_filter.mp hrf
        exact upsert_values db t r this.1 this.2
    · have hs : s = s₂ := by
        rw [lastSubFor_cons_of_some u c t ts s₂ hts] at hlast
        injection hlast with h
        exact h.symm
      subst hs
      apply ih (upsertReview db t) u c s hts
      by_cases ht : t.userId = u ∧ t.cafeId = c
      · obtain ⟨h1, h2⟩ := ht
        subst h1
        subst h2
        rw [countKey_upsert_same db t]
        omega
      · rw [countKey_upsert_other db t u c ht]
        exact hle

theorem countAllowedAt_cons (w : ℕ) (p : Bool × ℕ) (rest : List (Bool × ℕ)) :
    countAllowedAt w (p :: rest) =
      countAllowedAt w rest + (if p.1 = true ∧ p.2 = w then 1 else 0) := by
  unfold countAllowedAt
  rw [List.countP_cons]
  congr 1
  by_cases h1 : p.1 = true <;> by_cases h2 : p.2 = w <;> simp [h1, h2]

theorem rlRun_cons (maxR win : ℕ) (st : Option RateLimitState) (t : ℕ)
    (ts : List ℕ) :
    rlRun maxR win st (t :: ts) =
      ((rlStep maxR win st t).1, (rlStep maxR win st t).2.windowStart) ::
        rlRun maxR win (some (rlStep maxR win st t).2) ts := rfl

theorem rlStep_none (maxR win t : ℕ) :
    rlStep maxR win none t = (true, ⟨1, t⟩) := rfl

theorem rlStep_reset (maxR win t : ℕ) (st : RateLimitState)
    (hr : win ≤ t - st.windowStart) :
    rlStep maxR win (some st) t = (true, ⟨1, t⟩) := by
  unfold rlStep
  dsimp only
  rw [if_pos hr]

theorem rlStep_deny (maxR win t : ℕ) (st : RateLimitState)
    (hr : ¬ win ≤ t - st.windowStart) (hd : maxR ≤ st.count) :
    rlStep maxR win (some st) t = (false, st) := by
  unfold rlStep
  dsimp only
  rw [if_neg hr, if_pos hd]

theorem rlStep_allow (maxR win t : ℕ) (st : RateLimitState)
    (hr : ¬ win ≤ t - st.windowStart) (hd : ¬ maxR ≤ st.count) :
    rlStep maxR win (some st) t =
      (true, ⟨st.count + 1, st.windowStart⟩) := by
  unfold rlStep
  dsimp only
  rw [if_neg hr, if_neg hd]

theorem chain'_le_of_le {a b : ℕ} {l : List ℕ} (hab : a ≤ b)
    (h : List.Chain' (· ≤ ·) (b :: l)) : List.Chain' (· ≤ ·) (a :: l) := by
  cases l with
  | nil => simp
  | cons u us =>
    rw [List.chain'_cons] at h ⊢
    exact ⟨le_trans hab h.1, h.2⟩

theorem rlRun_bound_aux (maxR win : ℕ) (hmax : 1 ≤ maxR) (hwin : 1 ≤ win) :
    ∀ (ts : List ℕ) (st : RateLimitState),
      List.Chain' (· ≤ ·) (st.windowStart :: ts) →
      1 ≤ st.count →
      (∀ w, countAllowedAt w (rlRun maxR win (some st) ts) ≤
        (if w = st.windowStart then maxR - st.count else maxR)) ∧
      (∀ w, w < st.windowStart →
        countAllowedAt w (rlRun maxR win (some st) ts) = 0) := by
  intro ts
  induction ts with
  | nil =>
    intro st _ _
    constructor
    · intro w
      unfold rlRun countAllowedAt
      simp only [List.countP_nil]
      by_cases hw : w = st.windowStart <;> simp [hw]
    · intro w _
      unfold rlRun countAllowedAt
      simp [List.countP_nil]
  | cons t ts ih =>
    intro st hchain hcnt
    have hwst : st.windowStart ≤ t := (List.chain'_cons.mp hchain).1
    have hchain' : List.Chain' (· ≤ ·) (t :: ts) := by
      rcases ts with _ | ⟨u, us⟩
      · simp
      · rw [List.chain'_cons] at hchain
        exact hchain.2
    rw [rlRun_cons]
    by_cases hreset : win ≤ t - st.windowStart
    · rw [rlStep_reset maxR win t st hreset]
      dsimp only
      have htgt : st.windowStart < t := by omega
      obtain ⟨ihb, ihz⟩ := ih ⟨1, t⟩ hchain' (le_refl 1)
      dsimp only at ihb ihz
      constructor
      · intro w
        rw [countAllowedAt_cons]
        dsimp only
        by_cases hw : w = t
        · subst hw
          rw [if_neg (by omega : ¬ w = st.windowStart)]
          rw [if_pos ⟨rfl, rfl⟩]
          have h1 := ihb w
          rw [if_pos rfl] at h1
          omega
        · rw [if_neg (fun hcon => hw hcon.2.symm)]
          by_cases hws : w = st.windowStart
          · rw [if_pos hws]
            have h0 := ihz w (by omega)
            omega
          · rw [if_neg hws]
            have h1 := ihb w
            rw [if_neg hw] at h1
            omega
      · intro w hww
        rw [countAllowedAt_cons]
        dsimp only
        rw [if_neg (fun hcon : true = true ∧ t = w => absurd hcon.2 (by omega))]
        have h0 := ihz w (by omega)
        omega
    · by_cases hdeny : maxR ≤ st.count
      · rw [rlStep_deny maxR win t st hreset hdeny]
        dsimp only
        obtain ⟨ihb, ihz⟩ := ih st (chain'_le_of_le hwst hchain') hcnt
        constructor
        · intro w
          rw [countAllowedAt_cons]
          dsimp only
          rw [if_neg (fun hcon => Bool.false_ne_true hcon.1)]
          have h1 := ihb w
          omega
        · intro w hww
          rw [countAllowedAt_cons]
          dsimp only
          rw [if_neg (fun hcon => Bool.false_ne_true hcon.1)]
          have h0 := ihz w hww
          omega
      · rw [rlStep_allow maxR win t st hreset hdeny]
        dsimp only
        obtain ⟨ihb, ihz⟩ :=
          ih ⟨st.count + 1, st.windowStart⟩ (chain'_le_of_le hwst hchain')
            (Nat.le_add_left 1 st.count)
        dsimp only at ihb ihz
        constructor
        · intro w
          rw [countAllowedAt_cons]
          dsimp only
          by_cases hws : w = st.windowStart
          · rw [if_pos hws, if_pos ⟨rfl, hws.symm⟩]
            have h1 := ihb w
            rw [if_pos hws] at h1
            omega
          · rw [if_neg hws, if_neg (fun hcon => hws hcon.2.symm)]
            have h1 := ihb w
            rw [if_neg hws] at h1
            omega
        · intro w hww
          rw [countAllowedAt_cons]
          dsimp only
          rw [if_neg (fun hcon => absurd hcon.2 (by omega))]
          have h0 := ihz w hww
          omega

theorem rlRun_bound (maxR win : ℕ) (hmax : 1 ≤ maxR) (hwin : 1 ≤ win)
    (ts : List ℕ) (hchain : List.Chain' (· ≤ ·) ts) (w : ℕ) :
    countAllowedAt w (rlRun maxR win none ts) ≤ maxR := by
  cases ts with
  | nil => simp [rlRun, countAllowedAt]
  | cons t ts' =>
    rw [rlRun_cons, rlStep_none]
    dsimp only
    obtain ⟨ihb, ihz⟩ := rlRun_bound_aux maxR win hmax hwin ts' ⟨1, t⟩
      (by exact hchain) (le_refl 1)
    dsimp only at ihb ihz
    rw [countAllowedAt_cons]
    dsimp only
    by_cases hw : w = t
    · subst hw
      rw [if_pos ⟨rfl, rfl⟩]
      have h1 := ihb w
      rw [if_pos rfl] at h1
      omega
    · rw [if_neg (fun hcon => hw hcon.2.symm)]
      have h1 := ihb w
      rw [if_neg hw] at h1
      omega

/-! Claim theorems. -/

/-- Claim C3: for every validated list/search request with total candidate
count `T` and page size `S`: `totalPages = max(1, ceil(T/S))` (stated as
natural ceiling division); a requested page greater than `totalPages` is
clamped down to it and returns the same window, never an error; the returned
window is `candidates[(safePage-1)*S : safePage*S]`, so the window sizes
across pages `1..totalPages` sum to `T`; and the metadata is
`{page: safePage, pageSize, total, totalPages, hasNextPage: safePage <
totalPages, hasPreviousPage: safePage > 1}`. -/
theorem claim_C3 (xs : List ScoredCafe) (page pageSize : ℕ)
    (hpage : 1 ≤ page) (hsize : 1 ≤ pageSize) :
    (paginate xs page pageSize).2.totalPages =
      max 1 ((xs.length + pageSize - 1) / pageSize) ∧
    ((paginate xs page pageSize).2.totalPages < page →
      paginate xs page pageSize =
        paginate xs (paginate xs page pageSize).2.totalPages pageSize) ∧
    (paginate xs page pageSize).1 =
      (xs.drop ((min page (totalPagesOf xs.length pageSize) - 1) *
        pageSize)).take pageSize ∧
    (∑ p ∈ Finset.range (paginate xs page pageSize).2.totalPages,
        ((xs.drop (p * pageSize)).take pageSize).length) = xs.length ∧
    (paginate xs page pageSize).2 =
      ⟨min page (totalPagesOf xs.length pageSize), pageSize, xs.length,
       totalPagesOf xs.length pageSize,
       decide (min page (totalPagesOf xs.length pageSize) <
         totalPagesOf xs.length pageSize),
       decide (1 < min page (totalPagesOf xs.length pageSize))⟩ := by
  have htp := totalPagesOf_eq xs.length pageSize hsize
  unfold specTotalPages at htp
  refine ⟨?_, ?_, ?_, ?_, ?_⟩
  · simp only [paginate]
    exact htp
  · intro hlt
    simp only [paginate] at hlt ⊢
    have hmin1 : min page (totalPagesOf xs.length pageSize) =
        totalPagesOf xs.length pageSize := by omega
    simp only [hmin1, min_self]
  · simp only [paginate]
  · simp only [paginate]
    exact windowSum (totalPagesOf xs.length pageSize) pageSize xs
      (total_le_totalPagesOf_mul xs.length pageSize hsize)
  · simp only [paginate]

/-- Claim C3 witness: the windower at 3 candidates, page size 2, requested
page 5 (beyond the 2 real pages). -/
theorem claim_C3_witness :
    1 ≤ (5:ℕ) ∧ 1 ≤ (2:ℕ) ∧
    (∑ p ∈ Finset.range (paginate demoWindowCafes 5 2).2.totalPages,
        ((demoWindowCafes.drop (p * 2)).take 2).length) =
      demoWindowCafes.length :=
  ⟨by decide, by decide,
   (claim_C3 demoWindowCafes 5 2 (by decide) (by decide)).2.2.2.1⟩

/-- Claim C9: review submission is an upsert keyed on `(userId, cafeId)`:
starting from a database with at most one row for the key, any sequence of
submissions leaves at most one row for the key, and when at least one
submission targeted the key, exactly one row carries it and its rating,
price and comment fields hold the most recent submission's values. -/
theorem claim_C9 (db : List Review) (subs : List ReviewSubmission)
    (u c : String) (hunique : countKey db u c ≤ 1) :
    countKey (submitAll db subs) u c ≤ 1 ∧
    (∀ s, lastSubFor u c subs = some s →
      countKey (submitAll db subs) u c = 1 ∧
      ∀ r ∈ submitAll db subs, reviewKeyMatches r u c = true →
        r.tasteRating = s.tasteRating ∧ r.aestheticRating = s.aestheticRating ∧
        r.studyRating = s.studyRating ∧ r.priceEstimate = s.priceEstimate ∧
        r.textComment = s.textComment) :=
  ⟨countKey_submitAll_le db subs u c hunique,
   fun s hs => submitAll_last_values subs db u c s hs hunique⟩

/-- Claim C9 witness: two submissions from the same user for the same cafe
leave exactly one row, carrying the second submission's values. -/
theorem claim_C9_witness :
    countKey [] ("u1") ("a") ≤ 1 ∧
    lastSubFor ("u1") ("a") [subFirst, subSecond] = some subSecond ∧
    countKey (submitAll [] [subFirst, subSecond]) ("u1") ("a") = 1 :=
  ⟨by decide, by decide,
   ((claim_C9 [] [subFirst, subSecond] ("u1") ("a") (by decide)).2
     subSecond (by decide)).1⟩

/-- Claim C10: the fixed-window rate limiter allows at most `maxRequests`
calls per key within any single window of `windowMs` milliseconds starting
at the first call of the window (windows are identified by their recorded
start time); review submission uses 30 requests per 60000 ms keyed per
client IP (distinct IPs get distinct keys), and a blocked call produces the
429 response with message `too many requests, please try again shortly`. -/
theorem claim_C10 :
    (∀ (maxR win : ℕ) (ts : List ℕ) (w : ℕ), 1 ≤ maxR → 1 ≤ win →
      List.Chain' (· ≤ ·) ts →
      countAllowedAt w (rlRun maxR win none ts) ≤ maxR) ∧
    reviewsPostMaxRequests = 30 ∧ reviewsPostWindowMs = 60000 ∧
    (∀ ip₁ ip₂, reviewsPostRateLimitKey ip₁ = reviewsPostRateLimitKey ip₂ →
      ip₁ = ip₂) ∧
    (∀ st now,
      (rlStep reviewsPostMaxRequests reviewsPostWindowMs st now).1 = false →
      reviewsPostRateLimitGate st now =
        Except.error (429, "too many requests, please try again shortly")) := by
  refine ⟨?_, rfl, rfl, ?_, ?_⟩
  · intro maxR win ts w hmax hwin hchain
    exact rlRun_bound maxR win hmax hwin ts hchain w
  · intro ip₁ ip₂ h
    unfold reviewsPostRateLimitKey at h
    apply String.ext
    have hd := congrArg String.data h
    rw [String.data_append, String.data_append] at hd
    exact List.append_cancel_left hd
  · intro st now h
    unfold reviewsPostRateLimitGate
    rw [if_pos h]

/-- Claim C10 witness: the bound applied to the review-submission limits on
a concrete two-call trace, plus the 429 response for a blocked state. -/
theorem claim_C10_witness :
    1 ≤ (30:ℕ) ∧ 1 ≤ (60000:ℕ) ∧ List.Chain' (· ≤ ·) [0, 1] ∧
    countAllowedAt 0 (rlRun 30 60000 none [0, 1]) ≤ 30 ∧
    (rlStep reviewsPostMaxRequests reviewsPostWindowMs
      (some ⟨30, 0⟩) 1).1 = false ∧
    reviewsPostRateLimitGate (some ⟨30, 0⟩) 1 =
      Except.error (429, "too many requests, please try again shortly") :=
  ⟨by decide, by decide, by simp [List.chain'_cons],
   claim_C10.1 30 60000 [0, 1] 0 (by decide) (by decide)
     (by simp [List.chain'_cons]),
   by decide,
   claim_C10.2.2.2.2 (some ⟨30, 0⟩) 1 (by decide)⟩

/-- Claim C5: search matching is substring containment of the normalized
query in the normalized cafe name, where normalization NFD-decomposes,
strips combining diacritical marks and lowercases; `normalize("Phê")`
contains `normalize("phe")`, `normalize("Café") = normalize("cafe")`, and
the query `phe` matches `Phê House` but not `Matcha Corner`. -/
theorem claim_C5 :
    (∀ (q : String) (cafes : List Cafe) (c : Cafe),
      c ∈ matchedCafes cafes (normalizeForSearch q) ↔
        c ∈ cafes ∧
          (normalizeForSearch q).data <:+: (normalizeForSearch c.name).data) ∧
    (normalizeForSearch ("phe")).data <:+: (normalizeForSearch ("Phê")).data ∧
    normalizeForSearch ("Café") = normalizeForSearch ("cafe") ∧
    matchedCafes [pheHouse, matchaCorner] (normalizeForSearch ("phe")) =
      [pheHouse] := by
  refine ⟨?_, by decide, by decide, by decide⟩
  intro q cafes c
  unfold matchedCafes includesJS
  rw [List.mem_filter]
  simp only [decide_eq_true_eq]

/-- Claim C7, evaluated at the failing input: the LIST route's
`parseCityFilters` does no alias expansion, so filtering by `Bay Area`
excludes a cafe labelled `Bay` (while the search route's parser expands the
alias both ways). -/
theorem claim_C7_failing :
    parseCityFilters [("Bay Area")] = ["Bay Area"] ∧
    parseCityFiltersSearch [("Bay Area")] = ["Bay Area", "Bay"] ∧
    parseCityFiltersSearch [("Bay")] = ["Bay", "Bay Area"] ∧
    cafeMatchesWhere (parseCityFilters [("Bay Area")]) bayCafe = false ∧
    cafeMatchesWhere (parseCityFiltersSearch [("Bay Area")]) bayCafe = true ∧
    cafeMatchesWhere (parseCityFilters [("Bay")]) bayAreaCafe = false ∧
    listEndpoint [bayCafe] [] [("Bay Area")] none none none =
      Except.ok ⟨[], ⟨1, 6, 0, 1, false, false⟩, .rating⟩ := by
  refine ⟨by decide, by decide, by decide, by decide, by decide, by decide, ?_⟩
  have h : parseCityFilters [("Bay Area")] = ["Bay Area"] := by decide
  have h2 : cafeMatchesWhere ["Bay Area"] bayCafe = false := by decide
  simp [listEndpoint, parsePositiveInt, parseIntJS, h, h2, parseSort,
    listCandidates, sortCafes, paginate, totalPagesOf, List.insertionSort]

/-- Claim C8: the leaderboard aggregates all cafes, keeps only those with at
least one review, orders them by raw (unweighted, rounded) overallRating
descending with ties broken by reviewCount descending, and truncates to the
top 20: the result is a 20-prefix of a sorted permutation of the filtered
aggregate, every entry has reviews, and its overallRating is the aggregate
of its own reviews. -/
theorem claim_C8 (cafes : List Cafe) (reviews : List Review) :
    (rankedCafes cafes reviews).length ≤ 20 ∧
    (∀ e ∈ rankedCafes cafes reviews, 0 < e.reviewCount ∧
      e.overallRating = averageRatingOf (reviewsFor reviews e.id)) ∧
    (rankedCafes cafes reviews).Pairwise leaderboardOrderSpec ∧
    ∃ sortedAll : List LeaderboardEntry,
      rankedCafes cafes reviews = sortedAll.take 20 ∧
      sortedAll.Perm ((leaderboardAggregate cafes reviews).filter
        (fun e => 0 < e.reviewCount)) ∧
      sortedAll.Pairwise leaderboardOrderSpec := by
  have hperm := List.perm_insertionSort leaderboardLe
    ((leaderboardAggregate cafes reviews).filter (fun e => 0 < e.reviewCount))
  have hsorted : (((leaderboardAggregate cafes reviews).filter
      (fun e => 0 < e.reviewCount)).insertionSort
        leaderboardLe).Pairwise leaderboardOrderSpec := by
    have hs := List.sorted_insertionSort leaderboardLe
      ((leaderboardAggregate cafes reviews).filter (fun e => 0 < e.reviewCount))
    exact hs.imp (fun h => (leaderboardCompare_le_iff _ _).mp h)
  refine ⟨?_, ?_, ?_, ?_⟩
  · unfold rankedCafes
    exact List.length_take_le _ _
  · intro e he
    unfold rankedCafes at he
    have hmem := List.take_subset _ _ he
    rw [hperm.mem_iff, List.mem_filter] at hmem
    obtain ⟨hagg, hcnt⟩ := hmem
    simp only [decide_eq_true_eq] at hcnt
    refine ⟨hcnt, ?_⟩
    unfold leaderboardAggregate at hagg
    rw [List.mem_map] at hagg
    obtain ⟨c, _, rfl⟩ := hagg
    rfl
  · unfold rankedCafes
    exact hsorted.sublist (List.take_sublist _ _)
  · exact ⟨_, rfl, hperm, hsorted⟩

/-- Claim C8 witness: the leaderboard of the scenario cafe alone. -/
theorem claim_C8_witness :
    (⟨"a", "Cafe A", "LA", 2, some 4⟩ : LeaderboardEntry) ∈
      rankedCafes [scenarioCafe] scenarioReviews ∧
    0 < (⟨"a", "Cafe A", "LA", 2, some 4⟩ : LeaderboardEntry).reviewCount := by
  have hmem : (⟨"a", "Cafe A", "LA", 2, some 4⟩ : LeaderboardEntry) ∈
      rankedCafes [scenarioCafe] scenarioReviews := by
    have hval : rankedCafes [scenarioCafe] scenarioReviews =
        [⟨"a", "Cafe A", "LA", 2, some 4⟩] := by
      simp [rankedCafes, leaderboardAggregate, reviewsFor, averageRatingOf,
        dimAvg, toAverage, round2, scenarioCafe, scenarioReviews,
        reviewAllFives, reviewAllThrees, List.insertionSort]
      norm_num [round_eq]
    rw [hval]
    exact List.mem_singleton.mpr rfl
  exact ⟨hmem,
    ((claim_C8 [scenarioCafe] scenarioReviews).2.1 _ hmem).1⟩

/-- Claim C4: under the rating sort mode — selected by default for any
unknown or missing sort parameter — the full filtered candidate list is
ordered before pagination by weightedRating descending (null as -1), ties
by reviewCount descending, remaining ties by name ascending under the
case-insensitive locale comparison: the comparator agrees with that
lexicographic order, the sorted list is a sorted permutation of the
candidates, and the returned page is a slice of the sorted full list. -/
theorem claim_C4 (sortParam : Option String)
    (hunknown : ∀ s, sortParam = some s → toLowerJS s ≠ "popularity") :
    parseSort sortParam = .rating ∧
    (∀ l r : ScoredCafe, cafeLe .rating l r ↔ ratingOrderSpec l r) ∧
    (∀ xs : List ScoredCafe,
      (sortCafes .rating xs).Pairwise ratingOrderSpec ∧
      (sortCafes .rating xs).Perm xs) ∧
    (∀ (cafes : List Cafe) (reviews : List Review)
       (cityParams : List String) (pp psp : Option String)
       (result : ListResult),
      listEndpoint cafes reviews cityParams pp psp sortParam =
        Except.ok result →
      ∃ page pageSize : ℤ, parsePositiveInt pp 1 = some page ∧
        parsePositiveInt psp 6 = some pageSize ∧
        result.cafes = ((sortCafes .rating (listCandidates cafes reviews
            (parseCityFilters cityParams))).drop
          ((min page.toNat (totalPagesOf (listCandidates cafes reviews
              (parseCityFilters cityParams)).length pageSize.toNat) - 1) *
            pageSize.toNat)).take pageSize.toNat) := by
  have hps : parseSort sortParam = .rating := by
    cases sortParam with
    | none => rfl
    | some s =>
      unfold parseSort
      dsimp only
      by_cases hr : toLowerJS s = "rating"
      · rw [if_pos hr]
      · rw [if_neg hr, if_neg (hunknown s rfl)]
  refine ⟨hps, ?_, ?_, ?_⟩
  · intro l r
    unfold cafeLe
    exact compareCafes_rating_le_iff l r
  · intro xs
    constructor
    · have hs := List.sorted_insertionSort (cafeLe .rating) xs
      exact hs.imp (fun h => (compareCafes_rating_le_iff _ _).mp h)
    · exact List.perm_insertionSort _ _
  · intro cafes reviews cityParams pp psp result hok
    obtain ⟨page, pageSize, hpp, hpps, _, hres⟩ := listEndpoint_ok hok
    refine ⟨page, pageSize, hpp, hpps, ?_⟩
    rw [hres, hps]
    dsimp only
    simp only [paginate]
    rw [(sortCafes_perm SortOption.rating (listCandidates cafes reviews
      (parseCityFilters cityParams))).length_eq]

/-- Claim C4 witness: an unknown sort value falls back to the rating mode,
and sorting the empty candidate list is vacuously ordered. -/
theorem claim_C4_witness :
    parseSort (some ("newest")) = SortOption.rating ∧
    ((sortCafes .rating []).Pairwise ratingOrderSpec ∧
      (sortCafes .rating []).Perm []) := by
  have h := claim_C4 (some ("newest")) (by
    intro s hs
    injection hs with hss
    subst hss
    decide)
  exact ⟨h.1, h.2.2.1 []⟩

theorem cafeWithComputedScore_spec (c : Cafe) (reviews : List Review) :
    (cafeWithComputedScore c reviews).averageRating =
      averageRatingOf (reviewsFor reviews (cafeWithComputedScore c reviews).id) ∧
    ((cafeWithComputedScore c reviews).reviewCount = 0 →
      (cafeWithComputedScore c reviews).weightedRating = none) ∧
    (0 < (cafeWithComputedScore c reviews).reviewCount →
      (cafeWithComputedScore c reviews).weightedRating =
        some (round2
          (((cafeWithComputedScore c reviews).averageRating.getD 0 *
              ((cafeWithComputedScore c reviews).reviewCount : ℚ) + 3 * 5) /
            (((cafeWithComputedScore c reviews).reviewCount : ℚ) + 5)))) := by
  unfold cafeWithComputedScore computeWeighted
  dsimp only
  refine ⟨rfl, ?_, ?_⟩
  · intro h
    rw [if_pos h]
  · intro h
    rw [if_neg (by omega)]
    unfold toRoundedNumber priorRating weightedMinReviews
    norm_num

/-- Claim C1 (amended): every cafe returned by the list and search endpoints
carries `averageRating` equal to its own aggregate's rounded overall mean;
when `reviewCount > 0` its `weightedRating` is
`round2((averageRating * reviewCount + 3*5) / (reviewCount + 5))`, and when
`reviewCount = 0` its `weightedRating` is null; the two-review all-5s /
all-3s scenario yields weightedRating 3.29 (not the spec's 3.14). -/
theorem claim_C1 :
    (∀ (cafes : List Cafe) (reviews : List Review) (cityParams : List String)
       (pp psp sp : Option String) (result : ListResult),
      listEndpoint cafes reviews cityParams pp psp sp = Except.ok result →
      ∀ e ∈ result.cafes,
        e.averageRating = averageRatingOf (reviewsFor reviews e.id) ∧
        (e.reviewCount = 0 → e.weightedRating = none) ∧
        (0 < e.reviewCount → e.weightedRating =
          some (round2 ((e.averageRating.getD 0 * (e.reviewCount : ℚ) + 3 * 5) /
            ((e.reviewCount : ℚ) + 5))))) ∧
    (∀ (cafes : List Cafe) (reviews : List Review) (qp : Option String)
       (cityParams : List String) (pp psp sp : Option String)
       (result : ListResult),
      searchEndpoint cafes reviews qp cityParams pp psp sp =
        Except.ok result →
      ∀ e ∈ result.cafes,
        e.averageRating = averageRatingOf (reviewsFor reviews e.id) ∧
        (e.reviewCount = 0 → e.weightedRating = none) ∧
        (0 < e.reviewCount → e.weightedRating =
          some (round2 ((e.averageRating.getD 0 * (e.reviewCount : ℚ) + 3 * 5) /
            ((e.reviewCount : ℚ) + 5))))) ∧
    (cafeWithComputedScore scenarioCafe scenarioReviews).weightedRating =
      some (329/100) := by
  refine ⟨?_, ?_, ?_⟩
  · intro cafes reviews cityParams pp psp sp result hok e he
    obtain ⟨page, pageSize, _, _, _, hres⟩ := listEndpoint_ok hok
    rw [hres] at he
    dsimp only at he
    have he2 := mem_paginate he
    rw [(sortCafes_perm _ _).mem_iff] at he2
    obtain ⟨c, _, _, rfl⟩ := mem_listCandidates he2
    exact cafeWithComputedScore_spec c reviews
  · intro cafes reviews qp cityParams pp psp sp result hok e he
    obtain ⟨q, page, pageSize, _, _, _, _, _, hres⟩ := searchEndpoint_ok hok
    rw [hres] at he
    dsimp only at he
    have he2 := mem_paginate he
    rw [(sortCafes_perm _ _).mem_iff] at he2
    obtain ⟨c, _, _, _, rfl⟩ := mem_searchCandidates he2
    exact cafeWithComputedScore_spec c reviews
  · simp [cafeWithComputedScore, computeWeighted, averageRatingOf, dimAvg,
      reviewsFor, scenarioCafe, scenarioReviews, reviewAllFives,
      reviewAllThrees, toAverage, toRoundedNumber, round2, priorRating,
      weightedMinReviews]
    norm_num [round_eq]

/-- Claim C1 witness: the list endpoint on the scenario cafe returns the
3.29 weighted rating, and the theorem's field laws hold on that entry. -/
theorem claim_C1_witness :
    listEndpoint [scenarioCafe] scenarioReviews [] none none none =
      Except.ok scenarioListResult ∧
    (0 < scenarioScored.reviewCount → scenarioScored.weightedRating =
      some (round2 ((scenarioScored.averageRating.getD 0 *
          (scenarioScored.reviewCount : ℚ) + 3 * 5) /
        ((scenarioScored.reviewCount : ℚ) + 5)))) := by
  have hok : listEndpoint [scenarioCafe] scenarioReviews [] none none none =
      Except.ok scenarioListResult := by
    simp [listEndpoint, parsePositiveInt, parseIntJS, parseCityFilters,
      setDedup, parseSort, listCandidates, sortCafes, paginate, totalPagesOf,
      List.insertionSort, scenarioCafe, scenarioReviews, reviewAllFives,
      reviewAllThrees, cafeMatchesWhere, cafeWithComputedScore,
      computeWeighted, averageRatingOf, dimAvg, reviewsFor, toAverage,
      toRoundedNumber, round2, priorRating, weightedMinReviews,
      scenarioListResult, scenarioScored]
    norm_num [round_eq, Int.ceil_le]
  refine ⟨hok, ?_⟩
  have hmem : scenarioScored ∈ scenarioListResult.cafes := by
    simp [scenarioListResult]
  exact (claim_C1.1 [scenarioCafe] scenarioReviews [] none none none
    scenarioListResult hok scenarioScored hmem).2.2

/-- Claim C1 counterexample: the spec's scenario value 3.14 is wrong — the
code computes (4*2 + 3*5)/(2+5) = 23/7 which rounds to 3.29. -/
theorem claim_C1_counterexample :
    (cafeWithComputedScore scenarioCafe scenarioReviews).weightedRating =
      some (329/100) ∧
    (cafeWithComputedScore scenarioCafe scenarioReviews).weightedRating ≠
      some (314/100) := by
  have h : (cafeWithComputedScore scenarioCafe scenarioReviews).weightedRating =
      some (329/100) := by
    simp [cafeWithComputedScore, computeWeighted, averageRatingOf, dimAvg,
      reviewsFor, scenarioCafe, scenarioReviews, reviewAllFives,
      reviewAllThrees, toAverage, toRoundedNumber, round2, priorRating,
      weightedMinReviews]
    norm_num [round_eq]
  refine ⟨h, ?_⟩
  rw [h]
  intro hcon
  injection hcon with hval
  norm_num at hval

/-- Claim C2 (amended): for every cafe with at least one review, the
aggregator's overallRating is the mean of the three RAW (unrounded)
per-dimension means rounded once to 2 decimal places at the end — not the
mean of the individually rounded means — and the result is already a
2-decimal value (rounding it again changes nothing). -/
theorem claim_C2 (rs : List Review) (h : rs ≠ []) :
    averageRatingOf rs = some (round2 (rawOverallMean rs)) ∧
    (∀ v, averageRatingOf rs = some v → round2 v = v) := by
  have hne : rs.isEmpty = false := by
    cases rs with
    | nil => exact absurd rfl h
    | cons a as => rfl
  have hmain : averageRatingOf rs = some (round2 (rawOverallMean rs)) := by
    unfold averageRatingOf dimAvg
    rw [hne]
    simp only [Bool.false_eq_true, if_false]
    unfold toAverage rawOverallMean
    rfl
  refine ⟨hmain, ?_⟩
  intro v hv
  rw [hmain] at hv
  injection hv with hv2
  rw [← hv2]
  exact round2_idem _

/-- Claim C2 witness: the scenario reviews (dimension means 4, 4, 4) have
overallRating 4.00, the rounded raw overall mean. -/
theorem claim_C2_witness :
    scenarioReviews ≠ [] ∧
    averageRatingOf scenarioReviews =
      some (round2 (rawOverallMean scenarioReviews)) ∧
    averageRatingOf scenarioReviews = some 4 := by
  refine ⟨by decide, (claim_C2 scenarioReviews (by decide)).1, ?_⟩
  simp [averageRatingOf, dimAvg, scenarioReviews, reviewAllFives,
    reviewAllThrees, toAverage, round2]
  norm_num [round_eq]

/-- Claim C2 counterexample: on dimension means 4/3, 4/3 and 7/3 the code's
once-rounded overall is 1.67, while the mean of the already-rounded
dimension means (1.33, 1.33, 2.33) rounds to 1.66 — so overallRating is NOT
computed from the rounded per-dimension means. -/
theorem claim_C2_counterexample :
    averageRatingOf mixedRoundingReviews = some (167/100) ∧
    overallFromRoundedDims mixedRoundingReviews = some (166/100) ∧
    averageRatingOf mixedRoundingReviews ≠
      overallFromRoundedDims mixedRoundingReviews := by
  have h1 : averageRatingOf mixedRoundingReviews = some (167/100) := by
    simp [averageRatingOf, dimAvg, mixedRoundingReviews, toAverage, round2]
    norm_num [round_eq]
  have h2 : overallFromRoundedDims mixedRoundingReviews = some (166/100) := by
    simp [overallFromRoundedDims, dimAvg, mixedRoundingReviews, toAverage,
      round2]
    norm_num [round_eq]
  refine ⟨h1, h2, ?_⟩
  rw [h1, h2]
  intro hcon
  injection hcon with hval
  norm_num at hval

/-- Claim C6 (amended): a page parameter whose base-10 `parseInt` is `NaN`
(no leading integer) or non-positive yields 400 "page must be a positive
integer"; a pageSize parameter whose `parseInt` is `NaN`, non-positive or
greater than 50 yields 400 "pageSize must be a positive integer up to 50";
missing (or empty) parameters fall back to page 1 and pageSize 6; but a
non-integer numeral with a positive integer prefix, such as `3.7`, is
accepted as its prefix rather than rejected. -/
theorem claim_C6 (cafes : List Cafe) (reviews : List Review)
    (cityParams : List String) :
    (∀ (s : String) (psp sp : Option String), s ≠ "" →
      (parseIntJS s = none ∨ ∃ n, parseIntJS s = some n ∧ n ≤ 0) →
      listEndpoint cafes reviews cityParams (some s) psp sp =
        Except.error (400, "page must be a positive integer")) ∧
    (∀ (pp : Option String) (s : String) (sp : Option String) (page : ℤ),
      parsePositiveInt pp 1 = some page → s ≠ "" →
      (parseIntJS s = none ∨ (∃ n, parseIntJS s = some n ∧ n ≤ 0) ∨
        (∃ n, parseIntJS s = some n ∧ 50 < n)) →
      listEndpoint cafes reviews cityParams pp (some s) sp =
        Except.error (400, "pageSize must be a positive integer up to 50")) ∧
    (∀ psp sp, listEndpoint cafes reviews cityParams none psp sp =
      listEndpoint cafes reviews cityParams (some ("1")) psp sp) ∧
    (∀ pp sp, listEndpoint cafes reviews cityParams pp none sp =
      listEndpoint cafes reviews cityParams pp (some ("6")) sp) ∧
    listEndpoint [] [] [] (some ("3.7")) none none =
      Except.ok ⟨[], ⟨1, 6, 0, 1, false, false⟩, .rating⟩ := by
  refine ⟨?_, ?_, ?_, ?_, ?_⟩
  · intro s psp sp hne hbad
    have hp : parsePositiveInt (some s) 1 = none := by
      unfold parsePositiveInt
      dsimp only
      rw [if_neg hne]
      rcases hbad with hb | ⟨n, hb, hle⟩
      · rw [hb]
      · rw [hb]
        dsimp only
        rw [if_pos hle]
    unfold listEndpoint
    rw [hp]
  · intro pp s sp page hpage hne hbad
    have hp : parsePositiveInt (some s) 6 = none ∨
        ∃ n, parsePositiveInt (some s) 6 = some n ∧ 50 < n := by
      unfold parsePositiveInt
      dsimp only
      rw [if_neg hne]
      rcases hbad with hb | ⟨n, hb, hle⟩ | ⟨n, hb, hgt⟩
      · rw [hb]
        exact Or.inl rfl
      · rw [hb]
        dsimp only
        rw [if_pos hle]
        exact Or.inl rfl
      · rw [hb]
        dsimp only
        rw [if_neg (by omega : ¬ n ≤ 0)]
        exact Or.inr ⟨n, rfl, hgt⟩
    unfold listEndpoint
    rw [hpage]
    dsimp only
    rcases hp with hp | ⟨n, hp, hgt⟩
    · rw [hp]
    · rw [hp]
      dsimp only
      rw [if_pos hgt]
  · intro psp sp
    unfold listEndpoint
    rw [show parsePositiveInt none 1 = (some 1 : Option ℤ) from rfl,
      show parsePositiveInt (some ("1")) 1 = (some 1 : Option ℤ) from by decide]
  · intro pp sp
    unfold listEndpoint
    rw [show parsePositiveInt none 6 = (some 6 : Option ℤ) from rfl,
      show parsePositiveInt (some ("6")) 6 = (some 6 : Option ℤ) from by decide]
  · simp [listEndpoint, parsePositiveInt, parseIntJS, parseCityFilters,
      setDedup, parseSort, listCandidates, sortCafes, paginate, totalPagesOf,
      List.insertionSort]

/-- Claim C6 witness: a non-numeric page errors with 400, a page of 0 errors
with 400, and an absent pageSize defaults like an explicit 6. -/
theorem claim_C6_witness :
    ("abc" : String) ≠ "" ∧ parseIntJS ("abc") = none ∧
    listEndpoint [] [] [] (some ("abc")) none none =
      Except.error (400, "page must be a positive integer") ∧
    listEndpoint [] [] [] (some ("0")) none none =
      Except.error (400, "page must be a positive integer") ∧
    listEndpoint [] [] [] none none none =
      listEndpoint [] [] [] none (some ("6")) none :=
  ⟨by decide, by decide,
   (claim_C6 [] [] []).1 ("abc") none none (by decide) (Or.inl (by decide)),
   (claim_C6 [] [] []).1 ("0") none none (by decide)
     (Or.inr ⟨0, by decide, by decide⟩),
   (claim_C6 [] [] []).2.2.2.1 none none⟩

/-- Claim C6 counterexample: the page parameter `3.7` is not an integer, yet
the endpoint does not return the 400 error the claim requires — JS
`parseInt` accepts its integer prefix 3 (and the request succeeds, clamped
to the last page). -/
theorem claim_C6_counterexample :
    listEndpoint [] [] [] (some ("3.7")) none none =
      Except.ok ⟨[], ⟨1, 6, 0, 1, false, false⟩, .rating⟩ ∧
    listEndpoint [] [] [] (some ("3.7")) none none ≠
      Except.error (400, "page must be a positive integer") := by
  have h : listEndpoint [] [] [] (some ("3.7")) none none =
      Except.ok ⟨[], ⟨1, 6, 0, 1, false, false⟩, .rating⟩ := by
    simp [listEndpoint, parsePositiveInt, parseIntJS, parseCityFilters,
      setDedup, parseSort, listCandidates, sortCafes, paginate, totalPagesOf,
      List.insertionSort]
  refine ⟨h, ?_⟩
  rw [h]
  simp
